import Mathlib

/-
  Verification development for the OpenSubdiv refinement core.

  Shallow embedding of:
    - src/opensubdiv/sdc/scheme.h   (mask queries for subdivision vertices)
    - src/opensubdiv/far/refineTables.cpp
        (refinement facade and the Catmark feature-adaptive selector)

  Floating-point weights and sharpness values are embedded as rationals (ℚ);
  every constant appearing in the source is a small dyadic rational, so the
  formulas are exact.  Code of the repository that is not part of the source
  tree here (the SdcCrease algebra, the Catmark specializations of the
  protected mask-assignment helpers, and the Vtr level/refinement machinery)
  is modelled from the specification; each such definition carries a doc
  comment starting with: Modelled from the spec.
-/

namespace OpenSubdivProof

/-- SdcCrease::Rule (sdc/crease.h, referenced throughout scheme.h). -/
inductive Rule
  | UNKNOWN
  | SMOOTH
  | DART
  | CREASE
  | CORNER
deriving DecidableEq

/-- Modelled from the spec: SdcOptions::CreasingMethod is declared in
sdc/options.h, which is not under src/; per the spec the creasing method is
one of Uniform or Chaikin. -/
inductive CreasingMethod
  | UNIFORM
  | CHAIKIN
deriving DecidableEq

/-- Modelled from the spec: the slice of SdcOptions consumed by the crease
algebra (sdc/options.h is not under src/).  Only the creasing method is
relevant to the embedded mask queries. -/
structure SdcOptions where
  creasingMethod : CreasingMethod
deriving DecidableEq

/-- Modelled from the spec: SdcCrease::IsUniform (sdc/crease.h is not under
src/) reports whether the configured creasing method is the Uniform one. -/
def creaseIsUniform (options : SdcOptions) : Bool :=
  options.creasingMethod = CreasingMethod.UNIFORM

/-- Modelled from the spec: SdcCrease::INFINITE (sdc/crease.h is not under
src/) is the sentinel sharpness meaning permanently sharp; per the spec it is
a sentinel value of at least 10, conventionally 10. -/
def INFINITE : ℚ := 10

/-- A mask: three parallel weight vectors over the neighboring vertices,
edges and faces.  The counts set through SetVertexWeightCount /
SetEdgeWeightCount / SetFaceWeightCount are the lengths of the lists. -/
structure Mask where
  vertWeights : List ℚ
  edgeWeights : List ℚ
  faceWeights : List ℚ
deriving DecidableEq

/-- SdcScheme::assignCreaseMaskForEdge (scheme.h): two vertex weights of
0.5 each, no edge weights, no face weights. -/
def assignCreaseMaskForEdge : Mask :=
  { vertWeights := [1/2, 1/2], edgeWeights := [], faceWeights := [] }

/-- SdcScheme::assignCornerMaskForVertex (scheme.h): a single vertex weight
of 1.0, no edge weights, no face weights. -/
def assignCornerMaskForVertex : Mask :=
  { vertWeights := [1], edgeWeights := [], faceWeights := [] }

/-- Modelled from the spec: the Catmark specialization of
SdcScheme::assignSmoothMaskForEdge is declared but not defined under src/.
Per spec section 4.2 the smooth edge-vertex mask has endpoint vertex weights
3/8 each and one face weight per incident face; the spec gives the per-face
contribution for two incident quads as 1/(4*2) = 1/8, and the per-mask
weights must sum to 1 (spec section 8), so each of the A face weights is
1/(4*A). -/
def assignSmoothMaskForEdge (faceCount : ℕ) : Mask :=
  { vertWeights := [3/8, 3/8],
    edgeWeights := [],
    faceWeights := List.replicate faceCount (1 / (4 * (faceCount : ℚ))) }

/-- Modelled from the spec: the Catmark specialization of
SdcScheme::assignSmoothMaskForVertex is not under src/.  Per spec section 4.2,
for valence n the vertex weight is (n-2)/n and each incident edge and each
incident face carries weight 1/n^2. -/
def assignSmoothMaskForVertex (valence : ℕ) : Mask :=
  { vertWeights := [((valence : ℚ) - 2) / (valence : ℚ)],
    edgeWeights := List.replicate valence (1 / ((valence : ℚ) * (valence : ℚ))),
    faceWeights := List.replicate valence (1 / ((valence : ℚ) * (valence : ℚ))) }

/-- Modelled from the spec: the Catmark specialization of
SdcScheme::assignCreaseMaskForVertex is not under src/.  Per spec section 4.2
the vertex weight is 6/8 and the sharp incident edges carry weight 1/8 each,
all other edge weights zero and no face weights; the sharp edges are the ones
with positive entries in the supplied per-edge sharpness array. -/
def assignCreaseMaskForVertex (edgeSharpness : List ℚ) : Mask :=
  { vertWeights := [3/4],
    edgeWeights := edgeSharpness.map (fun s => if 0 < s then (1/8 : ℚ) else 0),
    faceWeights := [] }

/-- The topological neighborhood of a parent edge, as consumed by
SdcScheme::ComputeEdgeVertexMask.  The EDGE template argument of scheme.h is
supplied by the caller and is not under src/: GetSharpness, GetFaceCount and
GetChildSharpnesses are therefore modelled as data of the neighborhood
(GetChildSharpnesses yields the sharpness of the two child half-edges,
computed by the caller through the crease algebra). -/
structure EdgeNeighborhood where
  sharpness : ℚ
  faceCount : ℕ
  childSharpness0 : ℚ
  childSharpness1 : ℚ
deriving DecidableEq

/-- SdcScheme::ComputeEdgeVertexMask (scheme.h, lines 340-422), translated
branch for branch.  The final transitional branch blends the smooth mask of
the child toward the parent crease with the unclamped parent sharpness as the
parent weight: VertexWeight(i) = pWeight*0.5 + cWeight*VertexWeight(i) and
FaceWeight(i) *= cWeight with pWeight = GetSharpness(), cWeight = 1 -
pWeight. -/
def ComputeEdgeVertexMask (edge : EdgeNeighborhood) (options : SdcOptions)
    (parentRule childRule : Rule) : Mask :=
  if parentRule = Rule.SMOOTH ∨ (parentRule = Rule.UNKNOWN ∧ edge.sharpness ≤ 0) then
    assignSmoothMaskForEdge edge.faceCount
  else if childRule = Rule.CREASE then
    assignCreaseMaskForEdge
  else
    let childIsCrease : Bool :=
      if childRule = Rule.UNKNOWN then
        if parentRule = Rule.CREASE then true
        else if 1 ≤ edge.sharpness then true
        else if creaseIsUniform options then false
        else decide (0 < edge.childSharpness0 ∧ 0 < edge.childSharpness1)
      else false
    if childIsCrease then
      assignCreaseMaskForEdge
    else
      let m := assignSmoothMaskForEdge edge.faceCount
      let pWeight := edge.sharpness
      let cWeight := 1 - pWeight
      { vertWeights := [pWeight * (1/2) + cWeight * m.vertWeights.getD 0 0,
                        pWeight * (1/2) + cWeight * m.vertWeights.getD 1 0],
        edgeWeights := m.edgeWeights,
        faceWeights := m.faceWeights.map (fun w => w * cWeight) }

/-- The crease-to-smooth transitional edge-vertex mask, written out as the
blend of the smooth mask toward the 0.5/0.5 crease with parent weight w. -/
def edgeCreaseToSmoothBlend (w : ℚ) (faceCount : ℕ) : Mask :=
  let m := assignSmoothMaskForEdge faceCount
  { vertWeights := [w * (1/2) + (1 - w) * m.vertWeights.getD 0 0,
                    w * (1/2) + (1 - w) * m.vertWeights.getD 1 0],
    edgeWeights := m.edgeWeights,
    faceWeights := m.faceWeights.map (fun x => x * (1 - w)) }

/-- Clamp of a scalar to the interval from 0 to 1, as used by the spec's
description of the transitional blend weight. -/
def clamp01 (x : ℚ) : ℚ := min 1 (max 0 x)

/-- The topological neighborhood of a parent vertex, as consumed by
SdcScheme::ComputeVertexVertexMask.  The VERTEX template argument of scheme.h
is supplied by the caller and is not under src/: GetEdgeCount, GetSharpness,
GetSharpnessPerEdge, GetChildSharpness and GetChildSharpnessPerEdge are
therefore modelled as data of the neighborhood (the child values are the
sharpness of the child vertex and of the child half-edges, computed by the
caller through the crease algebra). -/
structure VertexNeighborhood where
  valence : ℕ
  sharpness : ℚ
  edgeSharpness : List ℚ
  childSharpness : ℚ
  childEdgeSharpness : List ℚ
deriving DecidableEq

/-- Modelled from the spec: SdcCrease::DetermineVertexVertexRule (sdc/crease.h
is not under src/).  Per spec section 4.1, with k the number of incident edges
of positive sharpness: vertex sharpness at least 1 gives Corner; otherwise
k = 0 gives Smooth, k = 1 gives Dart, k = 2 gives Crease, and k of 3 or more
gives Corner. -/
def DetermineVertexVertexRule (vertexSharpness : ℚ) (edgeSharpness : List ℚ) : Rule :=
  let k := (edgeSharpness.filter (fun s => 0 < s)).length
  if 1 ≤ vertexSharpness then Rule.CORNER
  else if k = 0 then Rule.SMOOTH
  else if k = 1 then Rule.DART
  else if k = 2 then Rule.CREASE
  else Rule.CORNER

/-- Modelled from the spec: SdcCrease::ComputeFractionalWeightAtVertex
(sdc/crease.h is not under src/).  Per spec section 4.1 the result is the
blend factor controlling how much of the parent rule's mask survives into the
child: a component (the vertex or an incident edge) is transitional when its
parent sharpness is positive but its child sharpness has decayed to zero;
with no transitional component the weight is 0 (full child rule), otherwise
it is the average of the transitional parent sharpness values clamped to 1,
so a parent sharpness of at least 1 yields 1 (full parent rule) and the
transitional case returns the parent sharpness clamped. -/
def ComputeFractionalWeightAtVertex (pVertSharpness cVertSharpness : ℚ)
    (pEdgeSharpness cEdgeSharpness : List ℚ) : ℚ :=
  let transitions :=
    (if 0 < pVertSharpness ∧ cVertSharpness ≤ 0 then [pVertSharpness] else []) ++
    ((pEdgeSharpness.zip cEdgeSharpness).filterMap
      (fun pc => if 0 < pc.1 ∧ pc.2 ≤ 0 then some pc.1 else none))
  if transitions.length = 0 then 0
  else min 1 (transitions.sum / (transitions.length : ℚ))

/-- SdcScheme::LocalMask::CombineVertexVertexMasks (scheme.h, lines 207-248):
combine this mask (the child's local mask) into dst (holding the parent-rule
mask) as dst = dstCoeff * dst + thisCoeff * this.  Exactly one vertex weight
is present on each side; the edge and face weights are optional: when this
mask has none the dst weights are left untouched, when dst has none the
weights of this mask are scaled by thisCoeff and copied through, and
otherwise the weights are blended index by index over the weight count of
this mask (the counts coincide -- both are the valence -- for every pair of
masks the vertex-vertex query produces). -/
def CombineVertexVertexMasks (thisMask : Mask) (thisCoeff dstCoeff : ℚ)
    (dst : Mask) : Mask :=
  { vertWeights :=
      [dstCoeff * dst.vertWeights.getD 0 0 + thisCoeff * thisMask.vertWeights.getD 0 0],
    edgeWeights :=
      if thisMask.edgeWeights.length = 0 then dst.edgeWeights
      else if dst.edgeWeights.length = 0 then
        thisMask.edgeWeights.map (fun w => thisCoeff * w)
      else
        (dst.edgeWeights.zip thisMask.edgeWeights).map
          (fun p => dstCoeff * p.1 + thisCoeff * p.2),
    faceWeights :=
      if thisMask.faceWeights.length = 0 then dst.faceWeights
      else if dst.faceWeights.length = 0 then
        thisMask.faceWeights.map (fun w => thisCoeff * w)
      else
        (dst.faceWeights.zip thisMask.faceWeights).map
          (fun p => dstCoeff * p.1 + thisCoeff * p.2) }

/-- SdcScheme::ComputeVertexVertexMask (scheme.h, lines 460-545), translated
branch for branch.  A caller-specified parent rule with an unspecified child
rule means no transition, so the child rule is first assigned the parent
rule; parent sharpness is gathered when the parent rule is unknown or Crease
or differs from the child rule, and an unknown parent rule is then determined
from it; the parent-rule mask is assigned (returning it when the rules agree
or the parent is Smooth or Dart); an unknown child rule is determined from
the child sharpness (again returning the parent mask on agreement); finally
the local child-rule mask is combined with the parent mask using the
fractional weight as the parent coefficient.  The unreachable fall-through
(a parent rule that is still Unknown after determination) yields the empty
mask, mirroring the uninitialized mask of the C++ code. -/
def ComputeVertexVertexMask (vertex : VertexNeighborhood)
    (pRule0 cRule0 : Rule) : Mask :=
  if pRule0 = Rule.SMOOTH ∨ pRule0 = Rule.DART then
    assignSmoothMaskForVertex vertex.valence
  else
    let cRule1 := if cRule0 = Rule.UNKNOWN ∧ pRule0 ≠ Rule.UNKNOWN then pRule0 else cRule0
    let requireParentSharpness :=
      pRule0 = Rule.UNKNOWN ∨ pRule0 = Rule.CREASE ∨ pRule0 ≠ cRule1
    let pRule :=
      if requireParentSharpness ∧ pRule0 = Rule.UNKNOWN then
        DetermineVertexVertexRule vertex.sharpness vertex.edgeSharpness
      else pRule0
    if pRule = Rule.SMOOTH ∨ pRule = Rule.DART then
      assignSmoothMaskForVertex vertex.valence
    else
      let mask0 :=
        if pRule = Rule.CREASE then assignCreaseMaskForVertex vertex.edgeSharpness
        else if pRule = Rule.CORNER then assignCornerMaskForVertex
        else { vertWeights := [], edgeWeights := [], faceWeights := [] }
      if cRule1 = pRule then mask0
      else
        let cRule :=
          if cRule1 = Rule.UNKNOWN then
            DetermineVertexVertexRule vertex.childSharpness vertex.childEdgeSharpness
          else cRule1
        if cRule1 = Rule.UNKNOWN ∧ cRule = pRule then mask0
        else
          let cMask :=
            if cRule = Rule.SMOOTH ∨ cRule = Rule.DART then
              assignSmoothMaskForVertex vertex.valence
            else if cRule = Rule.CREASE then
              assignCreaseMaskForVertex vertex.childEdgeSharpness
            else if cRule = Rule.CORNER then assignCornerMaskForVertex
            else { vertWeights := [], edgeWeights := [], faceWeights := [] }
          let pWeight := ComputeFractionalWeightAtVertex vertex.sharpness
            vertex.childSharpness vertex.edgeSharpness vertex.childEdgeSharpness
          CombineVertexVertexMasks cMask (1 - pWeight) pWeight mask0

/-- Index-wise affine combination of two sparse weight vectors, padding the
shorter one with zeros: entry i is pCoeff * p[i] + cCoeff * c[i]. -/
def affineCombineWeights (pCoeff : ℚ) (pws : List ℚ) (cCoeff : ℚ) (cws : List ℚ) :
    List ℚ :=
  (List.range (max pws.length cws.length)).map
    (fun i => pCoeff * pws.getD i 0 + cCoeff * cws.getD i 0)

/-- The mask combination as the spec words it, with explicit coefficients:
pCoeff scales the parent-rule mask and cCoeff scales the child-rule mask,
sparse weight vectors being read as zero-padded. -/
def affineMaskBlend (pCoeff cCoeff : ℚ) (parentMask childMask : Mask) : Mask :=
  { vertWeights := affineCombineWeights pCoeff parentMask.vertWeights cCoeff childMask.vertWeights,
    edgeWeights := affineCombineWeights pCoeff parentMask.edgeWeights cCoeff childMask.edgeWeights,
    faceWeights := affineCombineWeights pCoeff parentMask.faceWeights cCoeff childMask.faceWeights }

/-- Modelled from the spec: VtrLevel (vtr/level.h is not under src/) is a
complete topology snapshot at one subdivision depth, holding per-face vertex
and edge lists, per-edge vertex and incident-face lists, per-vertex incident
edge and face lists, and per-edge and per-vertex sharpness.  The compressed
ragged arrays of the source are modelled as lists of lists; the component
counts are the lengths of the parallel arrays. -/
structure VtrLevel where
  depth : ℕ
  faceVertsArr : List (List ℕ)
  faceEdgesArr : List (List ℕ)
  edgeVertsArr : List (List ℕ)
  edgeFacesArr : List (List ℕ)
  vertFacesArr : List (List ℕ)
  vertEdgesArr : List (List ℕ)
  edgeSharpnessArr : List ℚ
  vertSharpnessArr : List ℚ
deriving DecidableEq

/-- VtrLevel::faceCount. -/
def VtrLevel.faceCount (level : VtrLevel) : ℕ := level.faceVertsArr.length

/-- VtrLevel::edgeCount. -/
def VtrLevel.edgeCount (level : VtrLevel) : ℕ := level.edgeSharpnessArr.length

/-- VtrLevel::vertCount. -/
def VtrLevel.vertCount (level : VtrLevel) : ℕ := level.vertSharpnessArr.length

/-- The empty level allocated by the FarRefineTables constructor, to be
filled by an external factory. -/
def emptyLevel : VtrLevel :=
  { depth := 0, faceVertsArr := [], faceEdgesArr := [], edgeVertsArr := [],
    edgeFacesArr := [], vertFacesArr := [], vertEdgesArr := [],
    edgeSharpnessArr := [], vertSharpnessArr := [] }

/-- Modelled from the spec: VtrRefinement (vtr/refinement.h is not under
src/) records the child level it builds together with the data relevant to
the embedded facade: the per-child-vertex incomplete tags consulted by the
sparse selector of the next iteration, and the mask weights optionally
computed for the newly introduced child vertices. -/
structure VtrRefinement where
  child : VtrLevel
  childVertexIncomplete : List Bool
  maskWeights : List Mask
deriving DecidableEq

/-- Modelled from the spec: VtrRefinement::Options (vtr/refinement.h is not
under src/), the option block filled in by RefineUniform and RefineAdaptive
before each refinement step. -/
structure RefineOptions where
  sparse : Bool
  faceTopologyOnly : Bool
  computeMasks : Bool
  parentTagging : Bool
  childTagging : Bool
deriving DecidableEq

/-- The face-selection test applied to every face of a depth-0 level by
FarRefineTables::catmarkFeatureAdaptiveSelector (refineTables.cpp, lines
290-309): a non-quad is always selected, and a quad is selected when its
count of boundary edges (edges with exactly one incident face) exceeds 2, or
equals 2 while the incident-face counts of faceEdges[0] and faceEdges[2]
agree. -/
def catmarkFaceSelected (level : VtrLevel) (face : ℕ) : Bool :=
  let faceVerts := level.faceVertsArr.getD face []
  if faceVerts.length ≠ 4 then true
  else
    let faceEdges := level.faceEdgesArr.getD face []
    let edgeFacesSize := fun i =>
      (level.edgeFacesArr.getD (faceEdges.getD i 0) []).length
    let boundaryEdgeSum :=
      (if edgeFacesSize 0 = 1 then 1 else 0) + (if edgeFacesSize 1 = 1 then 1 else 0) +
      (if edgeFacesSize 2 = 1 then 1 else 0) + (if edgeFacesSize 3 = 1 then 1 else 0)
    decide (2 < boundaryEdgeSum ∨ (boundaryEdgeSum = 2 ∧ edgeFacesSize 0 = edgeFacesSize 2))

/-- The vertex-selection test of FarRefineTables::catmarkFeatureAdaptiveSelector
(refineTables.cpp, lines 325-347): vertices flagged incomplete by the
previous refinement are skipped; a vertex of positive sharpness is selected
when its incident-face count differs from 1 or its sharpness is below
INFINITE; a smooth vertex is selected when, with equal face and edge counts
(taken as interior), its face count differs from 4, and otherwise (taken as
boundary) when its face count differs from 2.  A selected vertex has its
incident faces selected. -/
def catmarkVertSelected (level : VtrLevel) (isIncomplete : ℕ → Bool) (vert : ℕ) : Bool :=
  if isIncomplete vert then false
  else
    let vertSharpness := level.vertSharpnessArr.getD vert 0
    if 0 < vertSharpness then
      decide ((level.vertFacesArr.getD vert []).length ≠ 1 ∨ vertSharpness < INFINITE)
    else
      let vertFaces := level.vertFacesArr.getD vert []
      let vertEdges := level.vertEdgesArr.getD vert []
      if vertFaces.length = vertEdges.length then decide (vertFaces.length ≠ 4)
      else decide (vertFaces.length ≠ 2)

/-- The faces selected by the face traversal of
FarRefineTables::catmarkFeatureAdaptiveSelector, which runs only at depth 0. -/
def selectorFacePhase (level : VtrLevel) : List ℕ :=
  if level.depth = 0 then
    (List.range level.faceCount).filter (fun face => catmarkFaceSelected level face)
  else []

/-- The faces selected by the vertex traversal of
FarRefineTables::catmarkFeatureAdaptiveSelector: every selected vertex
contributes its incident faces (VtrSparseSelector::selectVertexFaces is
modelled from the spec as marking all faces incident to the vertex). -/
def selectorVertPhase (level : VtrLevel) (isIncomplete : ℕ → Bool) : List ℕ :=
  ((List.range level.vertCount).filter
    (fun vert => catmarkVertSelected level isIncomplete vert)).map
      (fun vert => level.vertFacesArr.getD vert []) |>.flatten

/-- The faces selected by the edge traversal of
FarRefineTables::catmarkFeatureAdaptiveSelector: smooth edges (sharpness at
most 0) and edges with fewer than 2 incident faces are skipped, and for the
remaining sharp interior edges the incident faces of each non-incomplete end
vertex are selected. -/
def selectorEdgePhase (level : VtrLevel) (isIncomplete : ℕ → Bool) : List ℕ :=
  ((List.range level.edgeCount).map (fun edge =>
    if level.edgeSharpnessArr.getD edge 0 ≤ 0 ∨
        (level.edgeFacesArr.getD edge []).length < 2 then []
    else
      let edgeVerts := level.edgeVertsArr.getD edge []
      (if isIncomplete (edgeVerts.getD 0 0) then []
       else level.vertFacesArr.getD (edgeVerts.getD 0 0) []) ++
      (if isIncomplete (edgeVerts.getD 1 0) then []
       else level.vertFacesArr.getD (edgeVerts.getD 1 0) []))).flatten

/-- FarRefineTables::catmarkFeatureAdaptiveSelector (refineTables.cpp, lines
250-373): the set of faces marked for sparse refinement, accumulated by the
face, vertex and edge traversals in order.  Selection is monotonic, so the
selection is empty exactly when this list is empty. -/
def catmarkFeatureAdaptiveSelection (level : VtrLevel) (isIncomplete : ℕ → Bool) :
    List ℕ :=
  selectorFacePhase level ++ selectorVertPhase level isIncomplete ++
    selectorEdgePhase level isIncomplete

/-- Modelled from the spec: VtrSparseSelector::isVertexIncomplete consults
the child tags of the previous refinement identified through
setPreviousRefinement; with no previous refinement (at the first iteration)
no vertex is incomplete. -/
def incompleteOfPrev : Option VtrRefinement → ℕ → Bool
  | none => fun _ => false
  | some r => fun vert => r.childVertexIncomplete.getD vert false

/-- FarRefineTables (refineTables.cpp): the facade owning the level stack and
the refinement stack.  The scheme type is Catmark throughout (asserted by the
source), so only the remaining state is carried. -/
structure FarRefineTables where
  schemeOptions : SdcOptions
  isUniform : Bool
  maxLevel : ℕ
  levels : List VtrLevel
  refinements : List VtrRefinement
deriving DecidableEq

/-- The FarRefineTables constructor (refineTables.cpp, lines 37-44): uniform,
maxLevel 0, one (empty) base level and no refinements. -/
def FarRefineTables.create (schemeOptions : SdcOptions) : FarRefineTables :=
  { schemeOptions := schemeOptions, isUniform := true, maxLevel := 0,
    levels := [emptyLevel], refinements := [] }

/-- FarRefineTables::Unrefine (refineTables.cpp, lines 50-57): when the level
stack is non-empty it is resized to 1, and the refinements are cleared. -/
def FarRefineTables.Unrefine (tables : FarRefineTables) : FarRefineTables :=
  { tables with
    levels := if tables.levels.length ≠ 0 then tables.levels.take 1 else tables.levels,
    refinements := [] }

/-- FarRefineTables::Clear (refineTables.cpp, lines 59-64): both stacks are
emptied. -/
def FarRefineTables.Clear (tables : FarRefineTables) : FarRefineTables :=
  { tables with levels := [], refinements := [] }

/-- Modelled from the spec: one refinement step.  VtrRefinement::initialize
and VtrRefinement::refine (vtr/refinement.cpp is not under src/) together
form, per spec section 4.4, a deterministic transformation that empties the
child level and rebuilds it from the parent level under the given options in
a canonical, reproducible way.  The embedded facade is therefore
parameterized by the step as a pure function from the parent level and the
options to the child level and the refinement record. -/
def RefineStep : Type :=
  VtrLevel → RefineOptions → VtrLevel × VtrRefinement

/-- The per-iteration options of FarRefineTables::RefineUniform
(refineTables.cpp, lines 119-124): never sparse, masks as requested, and
face-topology-only exactly at the terminal level when full topology was not
requested. -/
def uniformRefineOptions (maxLevel : ℕ) (fullTopology computeMasks : Bool)
    (i : ℕ) : RefineOptions :=
  { sparse := false,
    faceTopologyOnly := if fullTopology then false else decide (i = maxLevel),
    computeMasks := computeMasks,
    parentTagging := false,
    childTagging := false }

/-- The level/refinement stacks built by the loop of
FarRefineTables::RefineUniform: starting from the base level, iteration i
refines the last level built under the options for i. -/
def uniformStacks (step : RefineStep) (optsAt : ℕ → RefineOptions)
    (base : VtrLevel) : ℕ → List VtrLevel × List VtrRefinement
  | 0 => ([base], [])
  | n + 1 =>
    let prev := uniformStacks step optsAt base n
    let parent := prev.1.getLastD base
    let cr := step parent (optsAt (n + 1))
    (prev.1 ++ [cr.1], prev.2 ++ [cr.2])

/-- FarRefineTables::RefineUniform (refineTables.cpp, lines 101-129): the
stacks are resized to maxLevel + 1 levels and maxLevel refinements, and for
i = 1..maxLevel the refinement between levels i-1 and i is initialized and
refined; since initialize empties the child, only the base level of the
previous stack survives into the result. -/
def FarRefineTables.RefineUniform (step : RefineStep) (maxLevel : ℕ)
    (fullTopology computeMasks : Bool) (tables : FarRefineTables) :
    FarRefineTables :=
  let built := uniformStacks step
    (uniformRefineOptions maxLevel fullTopology computeMasks)
    (tables.levels.headD emptyLevel) maxLevel
  { tables with
    isUniform := true,
    maxLevel := maxLevel,
    levels := built.1,
    refinements := built.2 }

/-- The options assembled by FarRefineTables::RefineAdaptive
(refineTables.cpp, lines 155-160): sparse, face-topology-only when full
topology was not requested (overwritten to false in the loop), masks as
requested, parent and child tagging enabled. -/
def adaptiveRefineOptions (fullTopology computeMasks : Bool) : RefineOptions :=
  { sparse := true,
    faceTopologyOnly := !fullTopology,
    computeMasks := computeMasks,
    parentTagging := true,
    childTagging := true }

/-- One iteration of the RefineAdaptive loop after a non-empty selection:
the parent level is refined (with faceTopologyOnly overwritten to false,
refineTables.cpp line 165) and the produced refinement becomes the previous
refinement of the next iteration. -/
def adaptiveStep (step : RefineStep) (opts : RefineOptions)
    (s : VtrLevel × Option VtrRefinement) : VtrLevel × Option VtrRefinement :=
  let cr := step s.1 { opts with faceTopologyOnly := false }
  (cr.1, some cr.2)

/-- The iteration state (parent level, previous refinement) the RefineAdaptive
loop would reach after j non-empty iterations from the given state. -/
def adaptiveIterState (step : RefineStep) (opts : RefineOptions)
    (s : VtrLevel × Option VtrRefinement) : ℕ → VtrLevel × Option VtrRefinement
  | 0 => s
  | j + 1 => adaptiveIterState step opts (adaptiveStep step opts s) j

/-- Whether the feature-adaptive selection comes up empty at relative
iteration j from the given state (j = 0 being the iteration about to run). -/
def adaptiveSelectionEmptyAt (step : RefineStep) (opts : RefineOptions)
    (s : VtrLevel × Option VtrRefinement) (j : ℕ) : Bool :=
  let st := adaptiveIterState step opts s j
  (catmarkFeatureAdaptiveSelection st.1 (incompleteOfPrev st.2)).isEmpty

/-- The levels and refinements appended by the RefineAdaptive loop from the
given state with the given number of remaining iterations: each iteration
runs the feature-adaptive selector on its parent level and, when the
selection is empty, stops early appending nothing further (refineTables.cpp,
lines 195-209), otherwise refines and continues. -/
def adaptiveStacks (step : RefineStep) (opts : RefineOptions) :
    ℕ → VtrLevel × Option VtrRefinement → List VtrLevel × List VtrRefinement
  | 0, _ => ([], [])
  | n + 1, s =>
    if (catmarkFeatureAdaptiveSelection s.1 (incompleteOfPrev s.2)).isEmpty then
      ([], [])
    else
      let cr := step s.1 { opts with faceTopologyOnly := false }
      let rest := adaptiveStacks step opts n (cr.1, some cr.2)
      (cr.1 :: rest.1, cr.2 :: rest.2)

/-- FarRefineTables::RefineAdaptive (refineTables.cpp, lines 132-211).  The
stacks are presized and then truncated on early termination; functionally the
surviving levels are the base level followed by the children of the non-empty
iterations, the refinements are those of the non-empty iterations, and
maxLevel ends up as the number of refinements performed (subdivLevel when the
loop runs to completion, i - 1 when iteration i found an empty selection). -/
def FarRefineTables.RefineAdaptive (step : RefineStep) (subdivLevel : ℕ)
    (fullTopology computeMasks : Bool) (tables : FarRefineTables) :
    FarRefineTables :=
  let refineOptions := adaptiveRefineOptions fullTopology computeMasks
  let base := tables.levels.headD emptyLevel
  let built := adaptiveStacks step refineOptions subdivLevel (base, none)
  { tables with
    isUniform := false,
    maxLevel := built.2.length,
    levels := base :: built.1,
    refinements := built.2 }

/-- The stack-shape invariant of the facade: at least one level, the
refinement stack exactly one shorter. -/
def stackInvariant (tables : FarRefineTables) : Prop :=
  1 ≤ tables.levels.length ∧
    tables.refinements.length = tables.levels.length - 1

/-- The number of boundary edges (edges with exactly one incident face) among
the four edges of a quad face. -/
def boundaryEdgeCountOfQuad (level : VtrLevel) (face : ℕ) : ℕ :=
  ((List.range 4).filter (fun i =>
    (level.edgeFacesArr.getD ((level.faceEdgesArr.getD face []).getD i 0) []).length = 1)).length

/-- A level holding a single vertex of sentinel (infinite) sharpness with no
incident faces and no incident edges. -/
def lonelyCornerLevel : VtrLevel :=
  { depth := 0, faceVertsArr := [], faceEdgesArr := [], edgeVertsArr := [],
    edgeFacesArr := [], vertFacesArr := [[]], vertEdgesArr := [[]],
    edgeSharpnessArr := [], vertSharpnessArr := [10] }

/-- A non-empty base level on which the feature-adaptive selector finds
nothing to select: one smooth vertex listed with four incident faces and four
incident edges, and no faces or edges of its own to traverse. -/
def quietBaseLevel : VtrLevel :=
  { depth := 0, faceVertsArr := [], faceEdgesArr := [], edgeVertsArr := [],
    edgeFacesArr := [], vertFacesArr := [[0, 1, 2, 3]], vertEdgesArr := [[4, 5, 6, 7]],
    edgeSharpnessArr := [], vertSharpnessArr := [0] }

/-- A concrete refinement step for witnesses: the child level repeats the
parent and nothing is tagged incomplete. -/
def idleRefineStep : RefineStep := fun level _ =>
  (level, { child := level, childVertexIncomplete := [], maskWeights := [] })

/-- A facade state holding the quiet base level. -/
def quietTables : FarRefineTables :=
  { schemeOptions := ⟨CreasingMethod.UNIFORM⟩, isUniform := true, maxLevel := 0,
    levels := [quietBaseLevel], refinements := [] }


/-- C5: for every edge neighborhood, ComputeEdgeVertexMask called with both
rules unspecified assigns the smooth mask whenever the parent edge sharpness
is at most 0, and assigns the crease mask -- vertex weights 0.5 and 0.5 with
no edge weights and no face weights -- whenever the parent edge sharpness is
at least 1. -/
theorem edgeMask_defaults_smooth_and_crease (edge : EdgeNeighborhood)
    (options : SdcOptions) :
    (edge.sharpness ≤ 0 →
      ComputeEdgeVertexMask edge options Rule.UNKNOWN Rule.UNKNOWN =
        assignSmoothMaskForEdge edge.faceCount) ∧
    (1 ≤ edge.sharpness →
      ComputeEdgeVertexMask edge options Rule.UNKNOWN Rule.UNKNOWN =
        { vertWeights := [1/2, 1/2], edgeWeights := [], faceWeights := [] }) := by
  constructor
  · intro h
    simp [ComputeEdgeVertexMask, h]
  · intro h
    have h0 : ¬ edge.sharpness ≤ 0 := by linarith
    simp [ComputeEdgeVertexMask, h, h0, assignCreaseMaskForEdge]

/-- Witness for C5: a smooth edge of sharpness 0 gets the smooth mask and an
edge of sharpness 2 gets the crease mask. -/
theorem edgeMask_defaults_witness :
    ComputeEdgeVertexMask ⟨0, 2, 0, 0⟩ ⟨CreasingMethod.UNIFORM⟩ Rule.UNKNOWN Rule.UNKNOWN =
      assignSmoothMaskForEdge 2 ∧
    ComputeEdgeVertexMask ⟨2, 2, 0, 0⟩ ⟨CreasingMethod.UNIFORM⟩ Rule.UNKNOWN Rule.UNKNOWN =
      { vertWeights := [1/2, 1/2], edgeWeights := [], faceWeights := [] } :=
  ⟨(edgeMask_defaults_smooth_and_crease ⟨0, 2, 0, 0⟩ ⟨CreasingMethod.UNIFORM⟩).1 (by norm_num),
   (edgeMask_defaults_smooth_and_crease ⟨2, 2, 0, 0⟩ ⟨CreasingMethod.UNIFORM⟩).2 (by norm_num)⟩

/-- C10: in ComputeEdgeVertexMask with both rules unspecified, a non-uniform
(Chaikin) creasing method and parent edge sharpness strictly between 0 and 1,
the child is classified as a crease (and the 0.5/0.5 crease mask assigned)
exactly when both subdivided child edge sharpnesses are strictly positive,
and otherwise the transitional crease-to-smooth blend is used. -/
theorem edgeMask_chaikin_transitional (edge : EdgeNeighborhood) (options : SdcOptions)
    (hmethod : options.creasingMethod = CreasingMethod.CHAIKIN)
    (hpos : 0 < edge.sharpness) (hlt : edge.sharpness < 1) :
    (ComputeEdgeVertexMask edge options Rule.UNKNOWN Rule.UNKNOWN =
        { vertWeights := [1/2, 1/2], edgeWeights := [], faceWeights := [] } ↔
      (0 < edge.childSharpness0 ∧ 0 < edge.childSharpness1)) ∧
    (¬(0 < edge.childSharpness0 ∧ 0 < edge.childSharpness1) →
      ComputeEdgeVertexMask edge options Rule.UNKNOWN Rule.UNKNOWN =
        edgeCreaseToSmoothBlend edge.sharpness edge.faceCount) := by
  have hns : ¬ edge.sharpness ≤ 0 := not_le.mpr hpos
  have hn1 : ¬ (1 ≤ edge.sharpness) := not_le.mpr hlt
  have hu : creaseIsUniform options = false := by
    simp [creaseIsUniform, hmethod]
  by_cases hc : 0 < edge.childSharpness0 ∧ 0 < edge.childSharpness1
  · constructor
    · simp [ComputeEdgeVertexMask, hns, hn1, hu, hc, assignCreaseMaskForEdge]
    · intro h
      exact absurd hc h
  · constructor
    · rw [ComputeEdgeVertexMask]
      simp only [hns, hn1, hu]
      simp [hc, edgeCreaseToSmoothBlend, assignSmoothMaskForEdge, Mask.mk.injEq]
      intro hv _
      nlinarith [hv]
    · intro _
      rw [ComputeEdgeVertexMask]
      simp only [hns, hn1, hu]
      simp [hc, edgeCreaseToSmoothBlend]

/-- Witness for C10: with Chaikin creasing and parent sharpness 1/2, child
sharpnesses 1/4 and 1/4 give the crease mask while child sharpnesses 1/4 and
0 give the transitional blend. -/
theorem edgeMask_chaikin_transitional_witness :
    (ComputeEdgeVertexMask ⟨1/2, 2, 1/4, 1/4⟩ ⟨CreasingMethod.CHAIKIN⟩
        Rule.UNKNOWN Rule.UNKNOWN =
      { vertWeights := [1/2, 1/2], edgeWeights := [], faceWeights := [] }) ∧
    (ComputeEdgeVertexMask ⟨1/2, 2, 1/4, 0⟩ ⟨CreasingMethod.CHAIKIN⟩
        Rule.UNKNOWN Rule.UNKNOWN = edgeCreaseToSmoothBlend (1/2) 2) :=
  ⟨(edgeMask_chaikin_transitional ⟨1/2, 2, 1/4, 1/4⟩ ⟨CreasingMethod.CHAIKIN⟩ rfl
      (by norm_num) (by norm_num)).1.mpr (by norm_num),
   (edgeMask_chaikin_transitional ⟨1/2, 2, 1/4, 0⟩ ⟨CreasingMethod.CHAIKIN⟩ rfl
      (by norm_num) (by norm_num)).2 (by norm_num)⟩

/-- C4 (amended): whenever the crease-to-smooth transitional branch of
ComputeEdgeVertexMask is reached, the blend weight is the parent edge
sharpness itself, with no clamping; the clamp claimed by the specification
coincides with this only because the branch is reached with sharpness below 1
whenever the child rule has to be inferred.  The branch hypotheses say the
parent is not (specified or detected) smooth, the child is not specified as a
crease, and an unspecified child is not determined to be a crease. -/
theorem edgeMask_transition_weight_unclamped (edge : EdgeNeighborhood)
    (options : SdcOptions) (parentRule childRule : Rule)
    (hp : ¬(parentRule = Rule.SMOOTH ∨ (parentRule = Rule.UNKNOWN ∧ edge.sharpness ≤ 0)))
    (hc : childRule ≠ Rule.CREASE)
    (hcu : childRule = Rule.UNKNOWN →
      parentRule ≠ Rule.CREASE ∧ edge.sharpness < 1 ∧
        (creaseIsUniform options = true ∨
          ¬(0 < edge.childSharpness0 ∧ 0 < edge.childSharpness1))) :
    ComputeEdgeVertexMask edge options parentRule childRule =
      edgeCreaseToSmoothBlend edge.sharpness edge.faceCount := by
  rw [ComputeEdgeVertexMask]
  rw [if_neg hp, if_neg hc]
  have hcrease :
      (if childRule = Rule.UNKNOWN then
        if parentRule = Rule.CREASE then true
        else if 1 ≤ edge.sharpness then true
        else if creaseIsUniform options then false
        else decide (0 < edge.childSharpness0 ∧ 0 < edge.childSharpness1)
      else false) = false := by
    by_cases hun : childRule = Rule.UNKNOWN
    · obtain ⟨hpc, hs1, hrest⟩ := hcu hun
      rw [if_pos hun, if_neg hpc, if_neg (not_le.mpr hs1)]
      rcases hrest with hu | hcs
      · rw [if_pos hu]
      · by_cases hu : creaseIsUniform options = true
        · rw [if_pos hu]
        · rw [if_neg hu]
          simpa using hcs
    · rw [if_neg hun]
  rw [hcrease]
  simp [edgeCreaseToSmoothBlend]

/-- Counterexample for C4: for a parent edge of sharpness 2 with the child
rule given as Smooth, the mask produced is not the blend with the weight
clamped to 1 -- the code blends with the raw weight 2, giving vertex weights
5/8 and negative face weights rather than the pure crease the clamp would
give. -/
theorem edgeMask_clamp_counterexample :
    ComputeEdgeVertexMask ⟨2, 2, 0, 0⟩ ⟨CreasingMethod.UNIFORM⟩
        Rule.UNKNOWN Rule.SMOOTH ≠
      edgeCreaseToSmoothBlend (clamp01 2) 2 := by
  simp [ComputeEdgeVertexMask, edgeCreaseToSmoothBlend, clamp01,
    assignSmoothMaskForEdge, Mask.mk.injEq]
  norm_num

/-- Witness for C4: the transitional branch at sharpness 2 with the child
given as Smooth produces the blend at the unclamped weight 2. -/
theorem edgeMask_transition_weight_unclamped_witness :
    ComputeEdgeVertexMask ⟨2, 2, 0, 0⟩ ⟨CreasingMethod.UNIFORM⟩
        Rule.UNKNOWN Rule.SMOOTH = edgeCreaseToSmoothBlend 2 2 :=
  edgeMask_transition_weight_unclamped ⟨2, 2, 0, 0⟩ ⟨CreasingMethod.UNIFORM⟩
    Rule.UNKNOWN Rule.SMOOTH
    (by rintro (h | ⟨-, h⟩)
        · exact absurd h (by simp)
        · norm_num at h)
    (by simp) (by simp)

/-- Auxiliary: combining weights into an absent destination vector scales the
source by its coefficient, which is the zero-padded affine combination. -/
theorem affineCombineWeights_nil_left (b a : ℚ) (l : List ℚ) :
    affineCombineWeights b [] a l = l.map (fun w => a * w) := by
  unfold affineCombineWeights
  apply List.ext_getElem
  · simp
  · intro i h1 h2
    simp only [List.getElem_map, List.getElem_range, List.getD_nil]
    have hi : i < l.length := by simpa using h2
    rw [List.getD_eq_getElem?_getD, List.getElem?_eq_getElem hi]
    simp

/-- Auxiliary: index-wise blending of two equal-length weight vectors is
their affine combination. -/
theorem affineCombineWeights_zip (b a : ℚ) (d t : List ℚ) (h : d.length = t.length) :
    (d.zip t).map (fun p => b * p.1 + a * p.2) = affineCombineWeights b d a t := by
  unfold affineCombineWeights
  apply List.ext_getElem
  · simp [h]
  · intro i h1 h2
    have hd : i < d.length := by simp [List.length_zip, h] at h1; omega
    have ht : i < t.length := by omega
    simp only [List.getElem_map, List.getElem_range, List.getElem_zip]
    rw [List.getD_eq_getElem?_getD, List.getElem?_eq_getElem hd,
        List.getD_eq_getElem?_getD, List.getElem?_eq_getElem ht]
    simp

/-- Auxiliary: on mask pairs whose sparse weight vectors are compatible (one
vertex weight each; the destination's optional edge and face vectors absent
or of the source's length, absent whenever the source's are absent), the
source combination dst = dstCoeff * dst + thisCoeff * this of
CombineVertexVertexMasks is the zero-padded affine combination of the two
masks. -/
theorem combine_eq_affineMaskBlend (mthis mdst : Mask) (w : ℚ)
    (hv1 : mthis.vertWeights.length = 1) (hv2 : mdst.vertWeights.length = 1)
    (he0 : mthis.edgeWeights.length = 0 → mdst.edgeWeights.length = 0)
    (he1 : mdst.edgeWeights.length ≠ 0 → mdst.edgeWeights.length = mthis.edgeWeights.length)
    (hf0 : mthis.faceWeights.length = 0 → mdst.faceWeights.length = 0)
    (hf1 : mdst.faceWeights.length ≠ 0 → mdst.faceWeights.length = mthis.faceWeights.length) :
    CombineVertexVertexMasks mthis (1 - w) w mdst = affineMaskBlend w (1 - w) mdst mthis := by
  have hweights : ∀ (d t : List ℚ),
      (t.length = 0 → d.length = 0) → (d.length ≠ 0 → d.length = t.length) →
      (if t.length = 0 then d
       else if d.length = 0 then t.map (fun x => (1 - w) * x)
       else (d.zip t).map (fun p => w * p.1 + (1 - w) * p.2)) =
        affineCombineWeights w d (1 - w) t := by
    intro d t h0 h1
    by_cases ht : t.length = 0
    · have hd := h0 ht
      rw [if_pos ht]
      rw [List.length_eq_zero] at ht hd
      subst ht hd
      rfl
    · rw [if_neg ht]
      by_cases hd : d.length = 0
      · rw [if_pos hd]
        rw [List.length_eq_zero] at hd
        subst hd
        exact (affineCombineWeights_nil_left w (1 - w) t).symm
      · rw [if_neg hd]
        exact affineCombineWeights_zip w (1 - w) d t (h1 hd)
  rw [CombineVertexVertexMasks, affineMaskBlend]
  refine Mask.mk.injEq .. ▸ ?_
  refine ⟨?_, hweights _ _ he0 he1, hweights _ _ hf0 hf1⟩
  unfold affineCombineWeights
  rw [hv1, hv2]
  rfl

/-- C1 (amended): in every vertex-vertex mask computation whose (specified)
child rule differs from the parent rule -- parent Crease with child Smooth or
Dart, or parent Corner with child Smooth, Dart or Crease, the combinations
the subdivided sharpness can produce -- the final mask equals
pWeight * parentMask + cWeight * childMask, where pWeight = w is the
fractional weight of ComputeFractionalWeightAtVertex and cWeight = 1 - w, so
w = 1 yields the full parent-rule mask.  The hypothesis ties the per-edge
sharpness array to the valence, as GetSharpnessPerEdge guarantees. -/
theorem vertexMask_transition_blend (vertex : VertexNeighborhood) (pR cR : Rule)
    (hlen : vertex.edgeSharpness.length = vertex.valence)
    (hpair : (pR = Rule.CREASE ∧ (cR = Rule.SMOOTH ∨ cR = Rule.DART)) ∨
             (pR = Rule.CORNER ∧ (cR = Rule.SMOOTH ∨ cR = Rule.DART ∨ cR = Rule.CREASE))) :
    ComputeVertexVertexMask vertex pR cR =
      affineMaskBlend
        (ComputeFractionalWeightAtVertex vertex.sharpness vertex.childSharpness
          vertex.edgeSharpness vertex.childEdgeSharpness)
        (1 - ComputeFractionalWeightAtVertex vertex.sharpness vertex.childSharpness
          vertex.edgeSharpness vertex.childEdgeSharpness)
        (if pR = Rule.CREASE then assignCreaseMaskForVertex vertex.edgeSharpness
          else assignCornerMaskForVertex)
        (if cR = Rule.CREASE then assignCreaseMaskForVertex vertex.childEdgeSharpness
          else assignSmoothMaskForVertex vertex.valence) := by
  have hsm : (assignSmoothMaskForVertex vertex.valence).vertWeights.length = 1 := by
    simp [assignSmoothMaskForVertex]
  have hsme : (assignSmoothMaskForVertex vertex.valence).edgeWeights.length = vertex.valence := by
    simp [assignSmoothMaskForVertex]
  have hsmf : (assignSmoothMaskForVertex vertex.valence).faceWeights.length = vertex.valence := by
    simp [assignSmoothMaskForVertex]
  have hcrv : ∀ l : List ℚ, (assignCreaseMaskForVertex l).vertWeights.length = 1 := by
    intro l; simp [assignCreaseMaskForVertex]
  have hcre : ∀ l : List ℚ, (assignCreaseMaskForVertex l).edgeWeights.length = l.length := by
    intro l; simp [assignCreaseMaskForVertex]
  have hcrf : ∀ l : List ℚ, (assignCreaseMaskForVertex l).faceWeights.length = 0 := by
    intro l; simp [assignCreaseMaskForVertex]
  have hcov : assignCornerMaskForVertex.vertWeights.length = 1 := by
    simp [assignCornerMaskForVertex]
  have hcoe : assignCornerMaskForVertex.edgeWeights.length = 0 := by
    simp [assignCornerMaskForVertex]
  have hcof : assignCornerMaskForVertex.faceWeights.length = 0 := by
    simp [assignCornerMaskForVertex]
  rcases hpair with ⟨hp, hc | hc⟩ | ⟨hp, hc | hc | hc⟩ <;> subst hp <;> subst hc
  · rw [ComputeVertexVertexMask]
    simp
    exact combine_eq_affineMaskBlend _ _ _ hsm (hcrv _)
      (by rw [hsme, hcre, hlen]; omega) (by rw [hsme, hcre, hlen]; omega)
      (by rw [hsmf, hcrf]; omega) (by rw [hsmf, hcrf]; omega)
  · rw [ComputeVertexVertexMask]
    simp
    exact combine_eq_affineMaskBlend _ _ _ hsm (hcrv _)
      (by rw [hsme, hcre, hlen]; omega) (by rw [hsme, hcre, hlen]; omega)
      (by rw [hsmf, hcrf]; omega) (by rw [hsmf, hcrf]; omega)
  · rw [ComputeVertexVertexMask]
    simp
    exact combine_eq_affineMaskBlend _ _ _ hsm hcov
      (by rw [hcoe]; omega) (by rw [hcoe]; omega)
      (by rw [hcof]; omega) (by rw [hcof]; omega)
  · rw [ComputeVertexVertexMask]
    simp
    exact combine_eq_affineMaskBlend _ _ _ hsm hcov
      (by rw [hcoe]; omega) (by rw [hcoe]; omega)
      (by rw [hcof]; omega) (by rw [hcof]; omega)
  · rw [ComputeVertexVertexMask]
    simp
    exact combine_eq_affineMaskBlend _ _ _ (hcrv _) hcov
      (by rw [hcoe]; omega) (by rw [hcoe]; omega)
      (by rw [hcof]; omega) (by rw [hcof]; omega)

/-- Counterexample for C1: a valence-4 neighborhood whose two sharp edges
keep positive child sharpness, taken from parent rule Crease to child rule
Smooth, has fractional weight 0, and the mask the code produces (the full
child mask, vertex weight 1/2) differs from the claimed
cWeight * parentMask + pWeight * childMask (which at pWeight = 0 would be the
full parent mask, vertex weight 3/4). -/
theorem vertexMask_claim_order_counterexample :
    ComputeVertexVertexMask ⟨4, 0, [2, 2, 0, 0], 0, [1, 1, 0, 0]⟩
        Rule.CREASE Rule.SMOOTH ≠
      affineMaskBlend
        (1 - ComputeFractionalWeightAtVertex 0 0 [2, 2, 0, 0] [1, 1, 0, 0])
        (ComputeFractionalWeightAtVertex 0 0 [2, 2, 0, 0] [1, 1, 0, 0])
        (assignCreaseMaskForVertex [2, 2, 0, 0])
        (assignSmoothMaskForVertex 4) := by
  have hw : ComputeFractionalWeightAtVertex 0 0 [2, 2, 0, 0] [1, 1, 0, 0] = 0 := by
    simp [ComputeFractionalWeightAtVertex]
  have h1 : (ComputeVertexVertexMask ⟨4, 0, [2, 2, 0, 0], 0, [1, 1, 0, 0]⟩
      Rule.CREASE Rule.SMOOTH).vertWeights = [1/2] := by
    simp [ComputeVertexVertexMask, CombineVertexVertexMasks,
      assignCreaseMaskForVertex, assignSmoothMaskForVertex, hw]
    norm_num
  have h2 : (affineMaskBlend
      (1 - ComputeFractionalWeightAtVertex 0 0 [2, 2, 0, 0] [1, 1, 0, 0])
      (ComputeFractionalWeightAtVertex 0 0 [2, 2, 0, 0] [1, 1, 0, 0])
      (assignCreaseMaskForVertex [2, 2, 0, 0])
      (assignSmoothMaskForVertex 4)).vertWeights = [3/4] := by
    simp [affineMaskBlend, affineCombineWeights, assignCreaseMaskForVertex,
      assignSmoothMaskForVertex, hw, List.range_succ]
  intro h
  rw [h, h2] at h1
  norm_num at h1

/-- Witness for C1 (amended): a valence-4 crease-to-smooth transition whose
sharp edges decay to zero, blended with fractional weight 1/2. -/
theorem vertexMask_transition_blend_witness :
    ComputeVertexVertexMask ⟨4, 0, [1/2, 1/2, 0, 0], 0, [0, 0, 0, 0]⟩
        Rule.CREASE Rule.SMOOTH =
      affineMaskBlend
        (ComputeFractionalWeightAtVertex 0 0 [1/2, 1/2, 0, 0] [0, 0, 0, 0])
        (1 - ComputeFractionalWeightAtVertex 0 0 [1/2, 1/2, 0, 0] [0, 0, 0, 0])
        (assignCreaseMaskForVertex [1/2, 1/2, 0, 0])
        (assignSmoothMaskForVertex 4) := by
  have h := vertexMask_transition_blend ⟨4, 0, [1/2, 1/2, 0, 0], 0, [0, 0, 0, 0]⟩
    Rule.CREASE Rule.SMOOTH (by simp) (by simp)
  simpa using h

/-- Auxiliary: the boundary-edge count of a quad face written as the sum of
the four indicator terms the selector computes. -/
theorem boundaryEdgeCountOfQuad_eq_sum (level : VtrLevel) (face : ℕ) :
    boundaryEdgeCountOfQuad level face =
      (if (level.edgeFacesArr.getD ((level.faceEdgesArr.getD face []).getD 0 0) []).length = 1
        then 1 else 0) +
      (if (level.edgeFacesArr.getD ((level.faceEdgesArr.getD face []).getD 1 0) []).length = 1
        then 1 else 0) +
      (if (level.edgeFacesArr.getD ((level.faceEdgesArr.getD face []).getD 2 0) []).length = 1
        then 1 else 0) +
      (if (level.edgeFacesArr.getD ((level.faceEdgesArr.getD face []).getD 3 0) []).length = 1
        then 1 else 0) := by
  by_cases h0 : (level.edgeFacesArr.getD ((level.faceEdgesArr.getD face []).getD 0 0) []).length = 1 <;>
  by_cases h1 : (level.edgeFacesArr.getD ((level.faceEdgesArr.getD face []).getD 1 0) []).length = 1 <;>
  by_cases h2 : (level.edgeFacesArr.getD ((level.faceEdgesArr.getD face []).getD 2 0) []).length = 1 <;>
  by_cases h3 : (level.edgeFacesArr.getD ((level.faceEdgesArr.getD face []).getD 3 0) []).length = 1 <;>
  · simp only [List.getD_eq_getElem?_getD] at h0 h1 h2 h3
    simp [boundaryEdgeCountOfQuad, List.range_succ, h0, h1, h2, h3]

/-- C3: during feature-adaptive selection at level 0, the face traversal
selects every non-quad face, and selects a quad face exactly when its count
of boundary edges (edges with exactly one incident face) exceeds 2, or equals
2 while the incident-face counts of faceEdges[0] and faceEdges[2] coincide
(the code's detection of the two boundary edges being opposite). -/
theorem faceSelection_at_level0 (level : VtrLevel) (hdepth : level.depth = 0)
    (face : ℕ) (hface : face < level.faceCount) :
    ((level.faceVertsArr.getD face []).length ≠ 4 → face ∈ selectorFacePhase level) ∧
    ((level.faceVertsArr.getD face []).length = 4 →
      (face ∈ selectorFacePhase level ↔
        2 < boundaryEdgeCountOfQuad level face ∨
          (boundaryEdgeCountOfQuad level face = 2 ∧
            (level.edgeFacesArr.getD ((level.faceEdgesArr.getD face []).getD 0 0) []).length =
              (level.edgeFacesArr.getD ((level.faceEdgesArr.getD face []).getD 2 0) []).length))) := by
  have hmem : face ∈ selectorFacePhase level ↔ catmarkFaceSelected level face = true := by
    simp [selectorFacePhase, hdepth, List.mem_filter, List.mem_range, hface]
  constructor
  · intro h4
    rw [hmem, catmarkFaceSelected]
    simp only [List.getD_eq_getElem?_getD] at h4
    simp [h4]
  · intro h4
    rw [hmem, catmarkFaceSelected, boundaryEdgeCountOfQuad_eq_sum]
    simp only [List.getD_eq_getElem?_getD] at h4
    simp [h4]

/-- Witness for C3: a quad whose two boundary edges are the opposite pair at
positions 0 and 2 (both with one incident face) is selected. -/
theorem faceSelection_at_level0_witness :
    0 ∈ selectorFacePhase
      { depth := 0, faceVertsArr := [[0, 1, 2, 3]], faceEdgesArr := [[0, 1, 2, 3]],
        edgeVertsArr := [], edgeFacesArr := [[9], [7, 8], [9], [7, 8]],
        vertFacesArr := [], vertEdgesArr := [],
        edgeSharpnessArr := [], vertSharpnessArr := [] } := by
  have h := faceSelection_at_level0
    { depth := 0, faceVertsArr := [[0, 1, 2, 3]], faceEdgesArr := [[0, 1, 2, 3]],
      edgeVertsArr := [], edgeFacesArr := [[9], [7, 8], [9], [7, 8]],
      vertFacesArr := [], vertEdgesArr := [],
      edgeSharpnessArr := [], vertSharpnessArr := [] }
    rfl 0 (by simp [VtrLevel.faceCount])
  exact (h.2 (by simp)).mpr (by right; constructor <;> simp [boundaryEdgeCountOfQuad_eq_sum])

/-- C6 (amended): during feature-adaptive selection, a vertex not flagged
incomplete and of positive sharpness has its incident faces selected exactly
when its incident-face count differs from 1 (rather than exceeds 1, the two
conditions differing only for a vertex with no incident face at all) or its
sharpness is finite (strictly below INFINITE); in particular an infinitely
sharp vertex with exactly one incident face is not selected. -/
theorem sharpVertexSelection (level : VtrLevel) (isIncomplete : ℕ → Bool) (vert : ℕ)
    (hinc : isIncomplete vert = false)
    (hsharp : 0 < level.vertSharpnessArr.getD vert 0) :
    (catmarkVertSelected level isIncomplete vert = true ↔
      ((level.vertFacesArr.getD vert []).length ≠ 1 ∨
        level.vertSharpnessArr.getD vert 0 < INFINITE)) ∧
    ((level.vertFacesArr.getD vert []).length = 1 ∧
        INFINITE ≤ level.vertSharpnessArr.getD vert 0 →
      catmarkVertSelected level isIncomplete vert = false) := by
  have h1 : catmarkVertSelected level isIncomplete vert =
      decide ((level.vertFacesArr.getD vert []).length ≠ 1 ∨
        level.vertSharpnessArr.getD vert 0 < INFINITE) := by
    rw [catmarkVertSelected]
    simp only [List.getD_eq_getElem?_getD] at hsharp
    simp [hinc, hsharp]
  constructor
  · rw [h1]
    simp
  · intro hh
    rw [h1]
    simp only [List.getD_eq_getElem?_getD] at hh
    simp [hh.1, not_lt.mpr hh.2]

/-- Counterexample for C6: an infinitely sharp vertex with no incident face
is selected by the code (its face count differs from 1), although the claim's
condition -- more than one incident face, or finite sharpness -- is false
there. -/
theorem sharpVertexSelection_counterexample :
    catmarkVertSelected lonelyCornerLevel (fun _ => false) 0 = true ∧
    ¬(1 < (lonelyCornerLevel.vertFacesArr.getD 0 []).length ∨
        lonelyCornerLevel.vertSharpnessArr.getD 0 0 < INFINITE) := by
  constructor
  · simp [catmarkVertSelected, lonelyCornerLevel, INFINITE]
  · simp [lonelyCornerLevel, INFINITE]

/-- Witness for C6 (amended): the infinitely sharp zero-face vertex is
selected since its face count differs from 1. -/
theorem sharpVertexSelection_witness :
    catmarkVertSelected lonelyCornerLevel (fun _ => false) 0 = true :=
  (sharpVertexSelection lonelyCornerLevel (fun _ => false) 0 rfl
    (by simp [lonelyCornerLevel])).1.mpr (by simp [lonelyCornerLevel])

/-- Auxiliary: the level stack built by the uniform refinement loop starts
with the base level. -/
theorem uniformStacks_fst_cons (step : RefineStep) (optsAt : ℕ → RefineOptions)
    (base : VtrLevel) : ∀ n, ∃ t, (uniformStacks step optsAt base n).1 = base :: t
  | 0 => ⟨[], rfl⟩
  | n + 1 => by
    obtain ⟨t, ht⟩ := uniformStacks_fst_cons step optsAt base n
    refine ⟨t ++ [(step ((uniformStacks step optsAt base n).1.getLastD base)
      (optsAt (n + 1))).1], ?_⟩
    simp only [uniformStacks]
    rw [ht]
    simp [ht]

/-- Auxiliary: the uniform loop builds n+1 levels. -/
theorem uniformStacks_fst_length (step : RefineStep) (optsAt : ℕ → RefineOptions)
    (base : VtrLevel) : ∀ n, (uniformStacks step optsAt base n).1.length = n + 1
  | 0 => rfl
  | n + 1 => by
    simp only [uniformStacks]
    simp [uniformStacks_fst_length step optsAt base n]

/-- Auxiliary: the uniform loop builds n refinements. -/
theorem uniformStacks_snd_length (step : RefineStep) (optsAt : ℕ → RefineOptions)
    (base : VtrLevel) : ∀ n, (uniformStacks step optsAt base n).2.length = n
  | 0 => rfl
  | n + 1 => by
    simp only [uniformStacks]
    simp [uniformStacks_snd_length step optsAt base n]

/-- Auxiliary: the adaptive loop appends exactly as many levels as
refinements. -/
theorem adaptiveStacks_length_eq (step : RefineStep) (opts : RefineOptions) :
    ∀ m s, (adaptiveStacks step opts m s).1.length = (adaptiveStacks step opts m s).2.length
  | 0, s => rfl
  | m + 1, s => by
    simp only [adaptiveStacks]
    split
    · rfl
    · simp [adaptiveStacks_length_eq step opts m]

/-- C7 (amended): construction, RefineUniform, RefineAdaptive, and Unrefine
from a state with at least one level leave the Levels sequence of length at
least 1 with element 0 the base level and the Refinements sequence exactly
one shorter; Clear is the exception the claim overlooks -- it empties both
sequences, leaving no levels at all. -/
theorem facade_stack_shape (options : SdcOptions) (step : RefineStep)
    (tables : FarRefineTables) (k n : ℕ) (ft cm ft2 cm2 : Bool) :
    (stackInvariant (FarRefineTables.create options) ∧
      (FarRefineTables.create options).levels = [emptyLevel]) ∧
    (stackInvariant (tables.RefineUniform step k ft cm) ∧
      (tables.RefineUniform step k ft cm).levels.headD emptyLevel =
        tables.levels.headD emptyLevel) ∧
    (stackInvariant (tables.RefineAdaptive step n ft2 cm2) ∧
      (tables.RefineAdaptive step n ft2 cm2).levels.headD emptyLevel =
        tables.levels.headD emptyLevel) ∧
    (tables.levels ≠ [] →
      tables.Unrefine.levels = [tables.levels.headD emptyLevel] ∧
        tables.Unrefine.refinements = []) ∧
    ((tables.Clear).levels.length = 0 ∧ (tables.Clear).refinements.length = 0) := by
  refine ⟨⟨⟨by simp [FarRefineTables.create], by simp [FarRefineTables.create]⟩, rfl⟩,
    ⟨⟨?_, ?_⟩, ?_⟩, ⟨⟨?_, ?_⟩, ?_⟩, ?_, by simp [FarRefineTables.Clear], by simp [FarRefineTables.Clear]⟩
  · show 1 ≤ (tables.RefineUniform step k ft cm).levels.length
    simp only [FarRefineTables.RefineUniform]
    rw [uniformStacks_fst_length]
    omega
  · show (tables.RefineUniform step k ft cm).refinements.length = _
    simp only [FarRefineTables.RefineUniform]
    rw [uniformStacks_fst_length, uniformStacks_snd_length]
    omega
  · simp only [FarRefineTables.RefineUniform]
    obtain ⟨t, ht⟩ := uniformStacks_fst_cons step
      (uniformRefineOptions k ft cm) (tables.levels.headD emptyLevel) k
    rw [ht]
    rfl
  · show 1 ≤ (tables.RefineAdaptive step n ft2 cm2).levels.length
    simp only [FarRefineTables.RefineAdaptive]
    simp
  · show (tables.RefineAdaptive step n ft2 cm2).refinements.length = _
    simp only [FarRefineTables.RefineAdaptive]
    simp [adaptiveStacks_length_eq]
  · simp only [FarRefineTables.RefineAdaptive]
    rfl
  · intro hne
    obtain ⟨a, t, hat⟩ := List.exists_cons_of_ne_nil hne
    constructor
    · simp only [FarRefineTables.Unrefine]
      rw [if_pos (fun h => hne (List.length_eq_zero.mp h))]
      rw [hat]
      simp
    · rfl

/-- Counterexample for C7: Clear leaves the Levels sequence empty, so the
claimed invariant -- length at least 1 after every public operation,
Clear included -- fails at a freshly constructed table. -/
theorem clear_empties_levels_counterexample :
    ¬(1 ≤ ((FarRefineTables.create ⟨CreasingMethod.UNIFORM⟩).Clear).levels.length) := by
  simp [FarRefineTables.create, FarRefineTables.Clear]

/-- Witness for C7 (amended): Unrefine on a one-level table keeps its base
level, and a uniform refinement to depth 2 satisfies the stack invariant. -/
theorem facade_stack_shape_witness :
    (quietTables.Unrefine.levels = [quietBaseLevel] ∧
      quietTables.Unrefine.refinements = []) ∧
    stackInvariant (quietTables.RefineUniform idleRefineStep 2 true true) := by
  have h := facade_stack_shape ⟨CreasingMethod.UNIFORM⟩ idleRefineStep quietTables
    2 2 true true true true
  exact ⟨h.2.2.2.1 (by simp [quietTables]), h.2.1.1⟩

/-- C8: for every RefineTables on which RefineUniform(k, fullTopology,
computeMasks) has completed, calling Unrefine and then RefineUniform again
with the same arguments yields a state -- Levels, Refinements and the mask
weights they carry -- identical to that of the first call: Unrefine restores
the base level and the (pure, deterministic) pipeline rebuilds the rest. -/
theorem refineUniform_unrefine_round_trip (step : RefineStep) (k : ℕ)
    (ft cm : Bool) (tables : FarRefineTables) :
    ((tables.RefineUniform step k ft cm).Unrefine).RefineUniform step k ft cm =
      tables.RefineUniform step k ft cm := by
  obtain ⟨t, ht⟩ := uniformStacks_fst_cons step
    (uniformRefineOptions k ft cm) (tables.levels.headD emptyLevel) k
  simp only [FarRefineTables.RefineUniform, FarRefineTables.Unrefine]
  rw [ht]
  rw [if_pos (by simp)]
  simp only [List.take_succ_cons, List.take_zero, List.headD_cons]
  rw [ht]

/-- Auxiliary: the adaptive loop is insensitive to any difference between its
option blocks that the per-iteration faceTopologyOnly overwrite erases. -/
theorem adaptiveStacks_congr (step : RefineStep) (o1 o2 : RefineOptions)
    (h : { o1 with faceTopologyOnly := false } = { o2 with faceTopologyOnly := false }) :
    ∀ m s, adaptiveStacks step o1 m s = adaptiveStacks step o2 m s
  | 0, _ => rfl
  | m + 1, s => by
    simp only [adaptiveStacks]
    rw [h]
    split
    · rfl
    · rw [adaptiveStacks_congr step o1 o2 h m]

/-- C9: RefineAdaptive is independent of its fullTopology argument -- the
faceTopologyOnly option it would control is overwritten to false before every
refinement -- so refining with fullTopology true and false from the same
state yields identical results. -/
theorem refineAdaptive_fullTopology_independent (step : RefineStep) (n : ℕ)
    (cm : Bool) (tables : FarRefineTables) :
    tables.RefineAdaptive step n true cm = tables.RefineAdaptive step n false cm := by
  simp only [FarRefineTables.RefineAdaptive]
  rw [adaptiveStacks_congr step (adaptiveRefineOptions true cm)
    (adaptiveRefineOptions false cm) rfl]

/-- Auxiliary: when the first d relative iterations select something and
iteration d comes up empty, the adaptive loop with more than d iterations
available appends exactly d levels and d refinements. -/
theorem adaptiveStacks_early_lengths (step : RefineStep) (opts : RefineOptions) :
    ∀ d m s, d < m →
      (∀ j, j < d → adaptiveSelectionEmptyAt step opts s j = false) →
      adaptiveSelectionEmptyAt step opts s d = true →
      (adaptiveStacks step opts m s).1.length = d ∧
        (adaptiveStacks step opts m s).2.length = d
  | 0, m, s, hdm, _, hstop => by
    cases m with
    | zero => omega
    | succ m =>
      have hsel : (catmarkFeatureAdaptiveSelection s.1 (incompleteOfPrev s.2)).isEmpty = true :=
        hstop
      simp only [adaptiveStacks]
      rw [if_pos hsel]
      exact ⟨rfl, rfl⟩
  | d + 1, m, s, hdm, hbefore, hstop => by
    cases m with
    | zero => omega
    | succ m =>
      have hsel : (catmarkFeatureAdaptiveSelection s.1 (incompleteOfPrev s.2)).isEmpty = false :=
        hbefore 0 (by omega)
      have ih := adaptiveStacks_early_lengths step opts d m
        (adaptiveStep step opts s) (by omega)
        (fun j hj => hbefore (j + 1) (by omega)) hstop
      simp only [adaptiveStacks]
      rw [if_neg (by simp [hsel])]
      have hstep : (adaptiveStep step opts s) =
          ((step s.1 { opts with faceTopologyOnly := false }).1,
            some (step s.1 { opts with faceTopologyOnly := false }).2) := rfl
      rw [hstep] at ih
      simp [ih.1, ih.2]

/-- C2: for RefineAdaptive(n, fullTopology, computeMasks) on a table whose
base level is non-empty, if the feature-adaptive selection is non-empty at
the iterations before i and empty at iteration i (1 <= i <= n, iteration j
being indexed from relative position j - 1), refinement stops early with
maxLevel i - 1, the Levels sequence of length i and the Refinements sequence
of length i - 1; in particular an empty selection at the first iteration
leaves one level and no refinements. -/
theorem refineAdaptive_early_termination (step : RefineStep) (tables : FarRefineTables)
    (n i : ℕ) (fullTopology computeMasks : Bool)
    (hbase : 0 < (tables.levels.headD emptyLevel).vertCount)
    (hi1 : 1 ≤ i) (hin : i ≤ n)
    (hbefore : ∀ j, j + 1 < i →
      adaptiveSelectionEmptyAt step (adaptiveRefineOptions fullTopology computeMasks)
        (tables.levels.headD emptyLevel, none) j = false)
    (hstop : adaptiveSelectionEmptyAt step (adaptiveRefineOptions fullTopology computeMasks)
        (tables.levels.headD emptyLevel, none) (i - 1) = true) :
    (tables.RefineAdaptive step n fullTopology computeMasks).levels.length = i ∧
    (tables.RefineAdaptive step n fullTopology computeMasks).refinements.length = i - 1 ∧
    (tables.RefineAdaptive step n fullTopology computeMasks).maxLevel = i - 1 := by
  have h := adaptiveStacks_early_lengths step
    (adaptiveRefineOptions fullTopology computeMasks) (i - 1) n
    (tables.levels.headD emptyLevel, none) (by omega)
    (fun j hj => hbefore j (by omega)) hstop
  simp only [FarRefineTables.RefineAdaptive]
  refine ⟨?_, ?_, ?_⟩
  · simp only [List.length_cons, h.1]
    omega
  · exact h.2
  · exact h.2

/-- Witness for C2: on the quiet base level nothing is selected at the first
iteration, so RefineAdaptive(5) leaves one level, no refinements and
maxLevel 0. -/
theorem refineAdaptive_early_termination_witness :
    (quietTables.RefineAdaptive idleRefineStep 5 true true).levels.length = 1 ∧
    (quietTables.RefineAdaptive idleRefineStep 5 true true).refinements.length = 0 ∧
    (quietTables.RefineAdaptive idleRefineStep 5 true true).maxLevel = 0 := by
  have h := refineAdaptive_early_termination idleRefineStep quietTables 5 1 true true
    (by simp [quietTables, quietBaseLevel, VtrLevel.vertCount])
    (by omega) (by omega)
    (fun j hj => absurd hj (by omega))
    (by simp [adaptiveSelectionEmptyAt, adaptiveIterState, quietTables,
      catmarkFeatureAdaptiveSelection, selectorFacePhase, selectorVertPhase,
      selectorEdgePhase, catmarkVertSelected, quietBaseLevel, incompleteOfPrev,
      VtrLevel.faceCount, VtrLevel.vertCount, VtrLevel.edgeCount, List.range_succ])
  exact h
end OpenSubdivProof
